import Mathlib

/-!
# Verification of the block-device-backed block allocator

A shallow embedding of `pkg/blobstore/local/block_device_backed_block_allocator.go`
and `pkg/blobstore/local/block_list_growing_policy.go` from the bb-storage
repository, together with proofs of the specification's claims about them.

Modelling conventions:
* The raw block device is a total function from byte addresses to byte values
  (`Device`); `Device.writeAt` embeds `io.WriterAt.WriteAt`, which in this
  development never fails (device I/O failures are injected through the
  buffer side instead, matching the code path through `IntoWriter`).
* Byte values are `Nat` (only the distinguished zero-pad byte matters).
* Sector offsets, sector sizes and sector counts are `Nat`: the Go code keeps
  them in `int`/`int64` but only ever stores non-negative values in them
  (offsets are `i * blockSectorCount` for `0 ≤ i`, cursors only grow).
* `BlockLocation` fields are `Int`, faithful to the `int64` proto fields,
  because `NewBlockAtLocation` receives externally supplied messages.
* Reference counts are `Int` (`atomic.Int64` in the code; the panic branches
  are exactly the sub-zero / `≤ 1` observations).
* Go `panic` is modelled by `Option`/`none`; a gRPC `status.Error` by an
  explicit `GoStatus` value.
-/

/-- Byte-addressed raw storage medium: address to byte value. -/
def Device : Type := Nat → Nat

/-- Embeds `io.WriterAt.WriteAt`: overwrite `data.length` bytes starting at byte
address `off`, leaving every other address untouched. -/
def Device.writeAt (d : Device) (off : Nat) (data : List Nat) : Device :=
  fun a => if off ≤ a ∧ a < off + data.length then data.getD (a - off) 0 else d a

/-- gRPC status codes used by this package (from `google.golang.org/grpc/codes`). -/
inductive StatusCode where
  | ok
  | invalidArgument
  | notFound
  | resourceExhausted
  | unavailable
deriving DecidableEq

/-- A `status.Error` value: a code plus a message. -/
structure GoStatus where
  code : StatusCode
  message : String
deriving DecidableEq

/-- The proto message `pb.BlockLocation`, two `int64` fields. -/
structure BlockLocation where
  offsetBytes : Int
  sizeBytes : Int
deriving DecidableEq

/-- State of `blockDeviceBackedBlockAllocator`: the configuration parameters
plus the lock-guarded free list.  The `blockDevice` and `readBufferFactory`
fields are externals; the device is threaded explicitly through the
operations that touch it. -/
structure blockDeviceBackedBlockAllocator where
  sectorSizeBytes : Nat
  blockSectorCount : Nat
  freeOffsets : List Nat
deriving DecidableEq

/-- State of `blockDeviceBackedBlock`: an atomic use count plus the fixed
device offset and the append cursor, both in sectors. -/
structure blockDeviceBackedBlock where
  usecount : Int
  deviceOffsetSectors : Nat
  writeOffsetSectors : Nat
deriving DecidableEq

namespace BlockAlloc

open blockDeviceBackedBlockAllocator

/-- Embeds `NewBlockDeviceBackedBlockAllocator`: free list seeded with
`int64(i) * blockSectorCount` for `i = 0 .. blockCount-1`. -/
def newAllocator (sectorSizeBytes blockSectorCount blockCount : Nat) :
    blockDeviceBackedBlockAllocator :=
  ⟨sectorSizeBytes, blockSectorCount,
    (List.range blockCount).map (fun i => i * blockSectorCount)⟩

/-- Embeds `toSectors`: ceiling division of a byte count into sectors,
`(sizeBytes + sectorSizeBytes - 1) / sectorSizeBytes`. -/
def toSectors (a : blockDeviceBackedBlockAllocator) (sizeBytes : Nat) : Nat :=
  (sizeBytes + a.sectorSizeBytes - 1) / a.sectorSizeBytes

/-- Embeds `getBlockLocationMessage`: the location derived from a device offset,
`{OffsetBytes: off * sectorSizeBytes, SizeBytes: blockSectorCount * sectorSizeBytes}`. -/
def getBlockLocationMessage (a : blockDeviceBackedBlockAllocator)
    (deviceOffsetSectors : Nat) : BlockLocation :=
  ⟨(deviceOffsetSectors : Int) * (a.sectorSizeBytes : Int),
    (a.blockSectorCount : Int) * (a.sectorSizeBytes : Int)⟩

/-- Embeds `newBlockObject`: a fresh handle with use count 1. -/
def newBlockObject (deviceOffsetSectors writeOffsetSectors : Nat) :
    blockDeviceBackedBlock :=
  ⟨1, deviceOffsetSectors, writeOffsetSectors⟩

/-- Embeds `NewBlock`: pop the front of the free list, or fail with
`status.Error(codes.Unavailable, "No unused blocks available")`. -/
def allocNewBlock (a : blockDeviceBackedBlockAllocator) :
    Except GoStatus (blockDeviceBackedBlock × BlockLocation × blockDeviceBackedBlockAllocator) :=
  match a.freeOffsets with
  | [] => .error ⟨.unavailable, "No unused blocks available"⟩
  | off :: rest =>
      .ok (newBlockObject off 0, getBlockLocationMessage a off,
        { a with freeOffsets := rest })

/-- Embeds `NewBlockAtLocation`: linear scan of the free list for an offset whose
derived location message equals `location`; on a hit, remove it by
overwriting with the last element and truncating, and resume the cursor at
`(writeOffsetBytes + sectorSizeBytes - 1) / sectorSizeBytes`. -/
def allocNewBlockAtLocation (a : blockDeviceBackedBlockAllocator)
    (location : BlockLocation) (writeOffsetBytes : Nat) :
    Option (blockDeviceBackedBlock × blockDeviceBackedBlockAllocator) :=
  match a.freeOffsets.findIdx? (fun off => getBlockLocationMessage a off == location) with
  | none => none
  | some i =>
      some (newBlockObject (a.freeOffsets.getD i 0)
          ((writeOffsetBytes + a.sectorSizeBytes - 1) / a.sectorSizeBytes),
        { a with freeOffsets :=
            (a.freeOffsets.set i (a.freeOffsets.getLastD 0)).dropLast })

/-- Embeds `Release`: decrement the use count; a negative result is a panic
(`none`); hitting zero appends the block's offset to the free list. -/
def blockRelease (pb : blockDeviceBackedBlock) (a : blockDeviceBackedBlockAllocator) :
    Option (blockDeviceBackedBlock × blockDeviceBackedBlockAllocator) :=
  let c := pb.usecount - 1
  if c < 0 then none
  else if c = 0 then
    some ({ pb with usecount := c },
      { a with freeOffsets := a.freeOffsets ++ [pb.deviceOffsetSectors] })
  else some ({ pb with usecount := c }, a)

/-- The reference-count half of `Get`: increment the use count, panicking
(`none`) when the post-increment value is at most 1. -/
def blockGetRef (pb : blockDeviceBackedBlock) : Option blockDeviceBackedBlock :=
  let c := pb.usecount + 1
  if c ≤ 1 then none else some { pb with usecount := c }

/-- The byte stream `Get` exposes: the device bytes at absolute offset
`deviceOffsetSectors * sectorSizeBytes + offsetBytes`, for `sizeBytes`
bytes (the `io.NewSectionReader` argument of `NewBufferFromReaderAt`). -/
def blockGetBytes (a : blockDeviceBackedBlockAllocator) (d : Device)
    (pb : blockDeviceBackedBlock) (offsetBytes sizeBytes : Nat) : List Nat :=
  (List.range sizeBytes).map
    (fun i => d (pb.deviceOffsetSectors * a.sectorSizeBytes + offsetBytes + i))

/-- Embeds `blockDeviceBackedBlockReader.Close`: release the containing block. -/
def blockReaderClose (pb : blockDeviceBackedBlock) (a : blockDeviceBackedBlockAllocator) :
    Option (blockDeviceBackedBlock × blockDeviceBackedBlockAllocator) :=
  blockRelease pb a

/-- Phase 1 of `Put`: bump the use count (panicking like `Get` when the
post-increment value is at most 1), record the current cursor as the
reservation, and advance the cursor by `toSectors sizeBytes`.  Returns the
updated block and the reserved `writeOffsetSectors`. -/
def blockPut (a : blockDeviceBackedBlockAllocator) (pb : blockDeviceBackedBlock)
    (sizeBytes : Nat) : Option (blockDeviceBackedBlock × Nat) :=
  let c := pb.usecount + 1
  if c ≤ 1 then none
  else some
    ({ pb with
        usecount := c,
        writeOffsetSectors := pb.writeOffsetSectors + toSectors a sizeBytes },
      pb.writeOffsetSectors)

end BlockAlloc

/-- State of `blockDeviceBackedBlockWriter`: the sector size
(`cap(partialSector)` in the code), the buffered trailing partial sector
(`partialSector`), and the current device sector offset. -/
structure BlockWriter where
  sectorSizeBytes : Nat
  pendingSector : List Nat
  offset : Nat
deriving DecidableEq

namespace BlockWriter

/-- Steps (b) and (c) of `Write`: write as many whole sectors of `p` as
possible directly at the current offset, then buffer the remaining tail. -/
def writeAligned (w : BlockWriter) (d : Device) (p : List Nat) :
    BlockWriter × Device :=
  let s := w.sectorSizeBytes
  let alignedSize := p.length / s * s
  ({ w with
      offset := w.offset + p.length / s,
      pendingSector := w.pendingSector ++ p.drop alignedSize },
    d.writeAt (w.offset * s) (p.take alignedSize))

/-- Embeds `blockDeviceBackedBlockWriter.Write`: top up a pending partial sector
first, flushing it once full, then pass the rest to the aligned path. -/
def write (w : BlockWriter) (d : Device) (p : List Nat) : BlockWriter × Device :=
  let s := w.sectorSizeBytes
  if w.pendingSector.length = 0 then writeAligned w d p
  else
    let leadingSize := min p.length (s - w.pendingSector.length)
    let filled := w.pendingSector ++ p.take leadingSize
    if filled.length < s then ({ w with pendingSector := filled }, d)
    else
      writeAligned { w with pendingSector := [], offset := w.offset + 1 }
        (d.writeAt (w.offset * s) filled) (p.drop leadingSize)

/-- Embeds `blockDeviceBackedBlockWriter.flush`: zero-pad any pending partial
sector to a full sector and write it out. -/
def flush (w : BlockWriter) (d : Device) : Device :=
  if w.pendingSector.length = 0 then d
  else
    let s := w.sectorSizeBytes
    d.writeAt (w.offset * s)
      (w.pendingSector ++ List.replicate (s - w.pendingSector.length) 0)

/-- Feed a sequence of chunks to `Write`, one call per chunk. -/
def run (wd : BlockWriter × Device) (cs : List (List Nat)) : BlockWriter × Device :=
  cs.foldl (fun wd c => write wd.1 wd.2 c) wd

end BlockWriter

namespace BlockAlloc

/-- Phase 2 of `Put` (the returned `BlockPutWriter` applied to a buffer,
then its finalizer): build a fresh sector writer at sector offset
`deviceOffsetSectors + reserved`, stream the buffer's chunks through
`Write`, flush only when the buffer succeeded (`bufErr = none`), then
unconditionally release the phase-1 reference.  Returns the updated block
and allocator, the device, and the finalizer's result: the reserved byte
offset `reserved * sectorSizeBytes` paired with the I/O error. -/
def blockPutPhase2 (a : blockDeviceBackedBlockAllocator) (pb : blockDeviceBackedBlock)
    (reserved : Nat) (d : Device) (chunks : List (List Nat)) (bufErr : Option String) :
    Option (blockDeviceBackedBlock × blockDeviceBackedBlockAllocator × Device × Nat × Option String) :=
  let w0 : BlockWriter := ⟨a.sectorSizeBytes, [], pb.deviceOffsetSectors + reserved⟩
  let wd := BlockWriter.run (w0, d) chunks
  let out : Device × Option String :=
    match bufErr with
    | none => (BlockWriter.flush wd.1 wd.2, none)
    | some e => (wd.2, some e)
  (blockRelease pb a).map
    (fun pr => (pr.1, pr.2, out.1, reserved * a.sectorSizeBytes, out.2))

end BlockAlloc

/-- Embeds `immutableBlockListGrowingPolicy`: holds the configured
`desiredCurrentAndNewBlocks` target.  Block counts are `Int`, matching the
Go `int` parameters. -/
structure immutableBlockListGrowingPolicy where
  desiredCurrentAndNewBlocks : Int
deriving DecidableEq

/-- Embeds `immutableBlockListGrowingPolicy.ShouldGrowNewBlocks`. -/
def immutableBlockListGrowingPolicy.shouldGrowNewBlocks
    (gp : immutableBlockListGrowingPolicy) (currentBlocks newBlocks : Int) : Bool :=
  currentBlocks + newBlocks < gp.desiredCurrentAndNewBlocks

/-- Embeds `immutableBlockListGrowingPolicy.ShouldGrowCurrentBlocks`. -/
def immutableBlockListGrowingPolicy.shouldGrowCurrentBlocks
    (_gp : immutableBlockListGrowingPolicy) (_currentBlocks : Int) : Bool :=
  false

/-- Embeds `mutableBlockListGrowingPolicy`: holds the configured
`desiredCurrentBlocks` target. -/
structure mutableBlockListGrowingPolicy where
  desiredCurrentBlocks : Int
deriving DecidableEq

/-- Embeds `mutableBlockListGrowingPolicy.ShouldGrowNewBlocks`. -/
def mutableBlockListGrowingPolicy.shouldGrowNewBlocks
    (_gp : mutableBlockListGrowingPolicy) (_currentBlocks newBlocks : Int) : Bool :=
  newBlocks < 1

/-- Embeds `mutableBlockListGrowingPolicy.ShouldGrowCurrentBlocks`. -/
def mutableBlockListGrowingPolicy.shouldGrowCurrentBlocks
    (gp : mutableBlockListGrowingPolicy) (currentBlocks : Int) : Bool :=
  currentBlocks < gp.desiredCurrentBlocks

namespace BlockAlloc

/-- Allocate `n` blocks in sequence with `NewBlock`, keeping only the
allocator state; `none` if any call fails. -/
def allocNTimes (a : blockDeviceBackedBlockAllocator) :
    Nat → Option blockDeviceBackedBlockAllocator
  | 0 => some a
  | n + 1 =>
      match allocNewBlock a with
      | .error _ => none
      | .ok (_, _, a2) => allocNTimes a2 n

theorem allocNTimes_eq (k : Nat) :
    ∀ a : blockDeviceBackedBlockAllocator, allocNTimes a k =
      if k ≤ a.freeOffsets.length then
        some { a with freeOffsets := a.freeOffsets.drop k }
      else none := by
  induction k with
  | zero => intro a; simp [allocNTimes]
  | succ k ih =>
      intro a
      match h : a.freeOffsets with
      | [] => simp [allocNTimes, allocNewBlock, h]
      | off :: rest =>
          simp only [allocNTimes, allocNewBlock, h, ih, List.length_cons, List.drop_succ_cons,
            Nat.add_le_add_iff_right]

/-- The ceiling-division characterization of `(w + s - 1) / s`: it is the
least `k` with `w ≤ k * s`. -/
theorem ceilDiv_le_iff {s : Nat} (hs : 0 < s) (w k : Nat) :
    (w + s - 1) / s ≤ k ↔ w ≤ k * s := by
  rw [Nat.div_le_iff_le_mul_add_pred hs, Nat.mul_comm k s]
  omega

end BlockAlloc

open BlockAlloc

/-- C9: the immutable policy grows "new" blocks exactly while
`currentBlocks + newBlocks < target` and never grows "current" blocks; the
mutable policy grows "new" blocks exactly while `newBlocks < 1` and grows
"current" blocks exactly while `currentBlocks < target`; including the
concrete scenarios with immutable target 5 and mutable target 4. -/
theorem growing_policies_spec :
    (∀ t c n : Int,
      immutableBlockListGrowingPolicy.shouldGrowNewBlocks ⟨t⟩ c n = true ↔ c + n < t) ∧
    (∀ t c : Int,
      immutableBlockListGrowingPolicy.shouldGrowCurrentBlocks ⟨t⟩ c = false) ∧
    (∀ t c n : Int,
      mutableBlockListGrowingPolicy.shouldGrowNewBlocks ⟨t⟩ c n = true ↔ n < 1) ∧
    (∀ t c : Int,
      mutableBlockListGrowingPolicy.shouldGrowCurrentBlocks ⟨t⟩ c = true ↔ c < t) ∧
    immutableBlockListGrowingPolicy.shouldGrowNewBlocks ⟨5⟩ 3 2 = false ∧
    immutableBlockListGrowingPolicy.shouldGrowNewBlocks ⟨5⟩ 3 1 = true ∧
    mutableBlockListGrowingPolicy.shouldGrowCurrentBlocks ⟨4⟩ 2 = true ∧
    mutableBlockListGrowingPolicy.shouldGrowNewBlocks ⟨4⟩ 2 1 = false ∧
    mutableBlockListGrowingPolicy.shouldGrowNewBlocks ⟨4⟩ 2 0 = true := by
  refine ⟨?_, ?_, ?_, ?_, by decide, by decide, by decide, by decide, by decide⟩ <;>
    intros <;>
    simp [immutableBlockListGrowingPolicy.shouldGrowNewBlocks,
      immutableBlockListGrowingPolicy.shouldGrowCurrentBlocks,
      mutableBlockListGrowingPolicy.shouldGrowNewBlocks,
      mutableBlockListGrowingPolicy.shouldGrowCurrentBlocks]

/-- C10: `NewBlockAtLocation` compares the whole location message, so any
location whose `sizeBytes` differs from
`blockSectorCount * sectorSizeBytes` is not found, regardless of its
`offsetBytes`. -/
theorem newBlockAtLocation_sizeBytes_mismatch
    (a : blockDeviceBackedBlockAllocator) (loc : BlockLocation) (w : Nat)
    (h : loc.sizeBytes ≠ (a.blockSectorCount : Int) * (a.sectorSizeBytes : Int)) :
    allocNewBlockAtLocation a loc w = none := by
  have hnone : a.freeOffsets.findIdx?
      (fun off => getBlockLocationMessage a off == loc) = none := by
    rw [List.findIdx?_eq_none_iff]
    intro off _
    rw [beq_eq_false_iff_ne]
    intro hEq
    apply h
    rw [← hEq]
    rfl
  rw [allocNewBlockAtLocation, hnone]

/-- Witness for `newBlockAtLocation_sizeBytes_mismatch`: offset 0 is free
and `offsetBytes = 0` names it, but `sizeBytes` 39 ≠ 40 yields not-found. -/
theorem newBlockAtLocation_sizeBytes_mismatch_witness :
    allocNewBlockAtLocation ⟨4, 10, [0]⟩ ⟨0, 39⟩ 0 = none :=
  newBlockAtLocation_sizeBytes_mismatch ⟨4, 10, [0]⟩ ⟨0, 39⟩ 0 (by decide)

/-- C8: `Release` panics exactly when the decremented count is negative;
`Get` and `Put` panic exactly when the post-increment count is at most 1;
when the caller holds a legitimate reference (count ≥ 1 before the call)
none of the three panics. -/
theorem refcount_breach_aborts (pb : blockDeviceBackedBlock)
    (a : blockDeviceBackedBlockAllocator) (n : Nat) :
    (blockRelease pb a = none ↔ pb.usecount - 1 < 0) ∧
    (blockGetRef pb = none ↔ pb.usecount + 1 ≤ 1) ∧
    (blockPut a pb n = none ↔ pb.usecount + 1 ≤ 1) ∧
    (1 ≤ pb.usecount →
      (∃ r, blockRelease pb a = some r) ∧ (∃ r, blockGetRef pb = some r) ∧
        (∃ r, blockPut a pb n = some r)) := by
  have h1 : blockRelease pb a = none ↔ pb.usecount - 1 < 0 := by
    simp only [blockRelease]
    split
    · simp_all
    · split <;> simp_all
  have h2 : blockGetRef pb = none ↔ pb.usecount + 1 ≤ 1 := by
    simp only [blockGetRef]
    split <;> simp_all
  have h3 : blockPut a pb n = none ↔ pb.usecount + 1 ≤ 1 := by
    simp only [blockPut]
    split <;> simp_all
  refine ⟨h1, h2, h3, fun h => ⟨?_, ?_, ?_⟩⟩
  · cases hE : blockRelease pb a with
    | none => exact absurd (h1.mp hE) (by omega)
    | some r => exact ⟨r, rfl⟩
  · cases hE : blockGetRef pb with
    | none => exact absurd (h2.mp hE) (by omega)
    | some r => exact ⟨r, rfl⟩
  · cases hE : blockPut a pb n with
    | none => exact absurd (h3.mp hE) (by omega)
    | some r => exact ⟨r, rfl⟩

/-- Witness for `refcount_breach_aborts` at a concrete block with use
count 1. -/
theorem refcount_breach_aborts_witness :
    (1 : Int) ≤ (1 : Int) ∧
      ((∃ r, blockRelease ⟨1, 0, 0⟩ ⟨1, 1, []⟩ = some r) ∧
        (∃ r, blockGetRef ⟨1, 0, 0⟩ = some r) ∧
        (∃ r, blockPut ⟨1, 1, []⟩ ⟨1, 0, 0⟩ 3 = some r)) :=
  ⟨by decide, (refcount_breach_aborts ⟨1, 0, 0⟩ ⟨1, 1, []⟩ 3).2.2.2 (by decide)⟩

/-- C3 counterexample: a fresh allocator with zero blocks fails `NewBlock`
with status code `Unavailable`, not `ResourceExhausted` as the claim's
wording has it. -/
theorem newBlock_error_code_counterexample :
    allocNewBlock (newAllocator 1 1 0) =
      .error ⟨.unavailable, "No unused blocks available"⟩ ∧
    StatusCode.unavailable ≠ StatusCode.resourceExhausted := by
  constructor
  · rfl
  · decide

/-- C3 (amended): `NewBlock` fails iff the free list is empty, the failure
is always `status.Error(codes.Unavailable, "No unused blocks available")`,
every success yields a block with write cursor 0 (and use count 1), and a
fresh allocator with `blockCount` blocks sustains exactly `blockCount`
successful allocations before the next call fails that way. -/
theorem newBlock_fails_iff_empty (s bsc m : Nat) :
    (∀ a : blockDeviceBackedBlockAllocator,
      (∃ e, allocNewBlock a = .error e) ↔ a.freeOffsets = []) ∧
    (∀ (a : blockDeviceBackedBlockAllocator) (e : GoStatus), allocNewBlock a = .error e →
      e = ⟨.unavailable, "No unused blocks available"⟩) ∧
    (∀ (a a2 : blockDeviceBackedBlockAllocator) (b : blockDeviceBackedBlock)
      (loc : BlockLocation), allocNewBlock a = .ok (b, loc, a2) →
      b.writeOffsetSectors = 0 ∧ b.usecount = 1) ∧
    (∃ a2, allocNTimes (newAllocator s bsc m) m = some a2 ∧ a2.freeOffsets = [] ∧
      allocNewBlock a2 = .error ⟨.unavailable, "No unused blocks available"⟩) := by
  refine ⟨?_, ?_, ?_, ?_⟩
  · intro a
    match h : a.freeOffsets with
    | [] => simp [allocNewBlock, h]
    | off :: rest => simp [allocNewBlock, h]
  · intro a e hE
    match h : a.freeOffsets with
    | [] =>
        simp only [allocNewBlock, h, Except.error.injEq] at hE
        exact hE.symm
    | off :: rest => simp [allocNewBlock, h] at hE
  · intro a a2 b loc hOk
    match h : a.freeOffsets with
    | [] => simp [allocNewBlock, h] at hOk
    | off :: rest =>
        simp only [allocNewBlock, h, Except.ok.injEq, Prod.mk.injEq] at hOk
        obtain ⟨hb, -, -⟩ := hOk
        rw [← hb]
        exact ⟨rfl, rfl⟩
  · refine ⟨⟨s, bsc, []⟩, ?_, rfl, rfl⟩
    rw [allocNTimes_eq]
    simp [newAllocator, List.drop_eq_nil_of_le]

/-- Witness for `newBlock_fails_iff_empty` at a fresh two-block allocator. -/
theorem newBlock_fails_iff_empty_witness :
    ((∃ e, allocNewBlock (newAllocator 2 3 2) = .error e) ↔
      (newAllocator 2 3 2).freeOffsets = []) ∧
    (∃ a2, allocNTimes (newAllocator 2 3 2) 2 = some a2 ∧ a2.freeOffsets = [] ∧
      allocNewBlock a2 = .error ⟨.unavailable, "No unused blocks available"⟩) :=
  ⟨(newBlock_fails_iff_empty 2 3 2).1 (newAllocator 2 3 2),
    (newBlock_fails_iff_empty 2 3 2).2.2.2⟩

/-- Removing index `i` by overwriting it with the last element and dropping
the last slot (the Go free-list removal idiom) is, up to permutation,
`eraseIdx i`. -/
theorem set_getLastD_dropLast_perm {α : Type} :
    ∀ (l : List α) (i : Nat) (d : α), i < l.length →
      ((l.set i (l.getLastD d)).dropLast).Perm (l.eraseIdx i)
  | [], i, d, h => by simp at h
  | x :: xs, 0, d, h => by
      match hxs : xs with
      | [] => simp
      | y :: ys =>
          have hne : y :: ys ≠ [] := List.cons_ne_nil y ys
          have hg : (x :: y :: ys).getLastD d = (y :: ys).getLast hne := by
            rw [List.getLastD_cons, List.getLastD_eq_getLast?,
              List.getLast?_eq_getLast (y :: ys) hne, Option.getD_some]
          rw [List.set_cons_zero, List.eraseIdx_cons_zero,
            List.dropLast_cons_of_ne_nil hne, hg]
          have h1 : ((y :: ys).dropLast ++ [(y :: ys).getLast hne]).Perm
              ((y :: ys).getLast hne :: (y :: ys).dropLast) :=
            List.perm_append_singleton _ _
          have h2 : (y :: ys).dropLast ++ [(y :: ys).getLast hne] = y :: ys :=
            List.dropLast_concat_getLast hne
          exact (h2 ▸ h1).symm
  | x :: xs, i + 1, d, h => by
      have hi : i < xs.length := by simpa using h
      have hne : xs ≠ [] := by
        intro hxs
        rw [hxs] at hi
        simp at hi
      have hg : (x :: xs).getLastD d = xs.getLastD x := List.getLastD_cons d x xs
      have hsetne : xs.set i (xs.getLastD x) ≠ [] := by
        intro hC
        exact hne (by simpa using hC)
      rw [List.set_cons_succ, List.eraseIdx_cons_succ, hg,
        List.dropLast_cons_of_ne_nil hsetne]
      exact (set_getLastD_dropLast_perm xs i x hi).cons x

/-- A list is a permutation of its `i`-th element consed onto the rest. -/
theorem perm_getElem_cons_eraseIdx {α : Type} :
    ∀ (l : List α) (i : Nat) (h : i < l.length),
      l.Perm (l.get ⟨i, h⟩ :: l.eraseIdx i)
  | [], i, h => by simp at h
  | x :: xs, 0, h => by simp
  | x :: xs, i + 1, h => by
      have hi : i < xs.length := by simpa using h
      have h1 : (x :: xs).Perm (x :: (xs.get ⟨i, hi⟩ :: xs.eraseIdx i)) :=
        (perm_getElem_cons_eraseIdx xs i hi).cons x
      have h2 : (x :: (xs.get ⟨i, hi⟩ :: xs.eraseIdx i)).Perm
          (xs.get ⟨i, hi⟩ :: (x :: xs.eraseIdx i)) := List.Perm.swap _ _ _
      exact h1.trans h2

/-- C5: `NewBlockAtLocation` succeeds iff some free offset derives the
requested location; on success it returns a block whose cursor is the
ceiling of `writeOffsetBytes / sectorSizeBytes` (with use count 1 and a
matching offset), and it removes the first matching free-list entry by
overwriting it with the last element and truncating — a removal that is a
permutation of deleting that index; a miss reports not-found (`none`),
leaving the state untouched. -/
theorem newBlockAtLocation_spec (a : blockDeviceBackedBlockAllocator)
    (loc : BlockLocation) (w : Nat) (hs : 0 < a.sectorSizeBytes) :
    ((∃ r, allocNewBlockAtLocation a loc w = some r) ↔
      ∃ off, off ∈ a.freeOffsets ∧ getBlockLocationMessage a off = loc) ∧
    (allocNewBlockAtLocation a loc w = none ↔
      ∀ off ∈ a.freeOffsets, getBlockLocationMessage a off ≠ loc) ∧
    (∀ (b : blockDeviceBackedBlock) (a2 : blockDeviceBackedBlockAllocator),
      allocNewBlockAtLocation a loc w = some (b, a2) →
      b.usecount = 1 ∧
      b.writeOffsetSectors = (w + a.sectorSizeBytes - 1) / a.sectorSizeBytes ∧
      (∀ k, b.writeOffsetSectors ≤ k ↔ w ≤ k * a.sectorSizeBytes) ∧
      getBlockLocationMessage a b.deviceOffsetSectors = loc ∧
      a2.sectorSizeBytes = a.sectorSizeBytes ∧
      a2.blockSectorCount = a.blockSectorCount ∧
      ∃ i, ∃ h : i < a.freeOffsets.length,
        a.freeOffsets.get ⟨i, h⟩ = b.deviceOffsetSectors ∧
        (∀ j (hj : j < a.freeOffsets.length), j < i →
          getBlockLocationMessage a (a.freeOffsets.get ⟨j, hj⟩) ≠ loc) ∧
        a2.freeOffsets = (a.freeOffsets.set i (a.freeOffsets.getLastD 0)).dropLast ∧
        (a2.freeOffsets).Perm (a.freeOffsets.eraseIdx i)) := by
  refine ⟨⟨?_, ?_⟩, ⟨?_, ?_⟩, ?_⟩
  · rintro ⟨r, hr⟩
    rw [allocNewBlockAtLocation] at hr
    match hIdx : a.freeOffsets.findIdx?
        (fun off => getBlockLocationMessage a off == loc) with
    | none => rw [hIdx] at hr; exact absurd hr (by simp)
    | some i =>
        obtain ⟨hlen, hpi, -⟩ := List.findIdx?_eq_some_iff_getElem.mp hIdx
        exact ⟨a.freeOffsets[i], List.getElem_mem hlen, by simpa using hpi⟩
  · rintro ⟨off, hmem, hloc⟩
    rw [allocNewBlockAtLocation,
      List.findIdx?_eq_some_of_exists ⟨off, hmem, by simpa using hloc⟩]
    exact ⟨_, rfl⟩
  · intro hnone
    rw [allocNewBlockAtLocation] at hnone
    match hIdx : a.freeOffsets.findIdx?
        (fun off => getBlockLocationMessage a off == loc) with
    | none =>
        intro off hmem
        have := List.findIdx?_eq_none_iff.mp hIdx off hmem
        simpa [beq_eq_false_iff_ne] using this
    | some i => rw [hIdx] at hnone; exact absurd hnone (by simp)
  · intro hall
    rw [allocNewBlockAtLocation]
    have hIdx : a.freeOffsets.findIdx?
        (fun off => getBlockLocationMessage a off == loc) = none := by
      rw [List.findIdx?_eq_none_iff]
      intro off hmem
      exact beq_eq_false_iff_ne.mpr (hall off hmem)
    rw [hIdx]
  · intro b a2 hr
    rw [allocNewBlockAtLocation] at hr
    match hIdx : a.freeOffsets.findIdx?
        (fun off => getBlockLocationMessage a off == loc) with
    | none => rw [hIdx] at hr; exact absurd hr (by simp)
    | some i =>
        obtain ⟨hlen, hpi, hmin⟩ := List.findIdx?_eq_some_iff_getElem.mp hIdx
        rw [hIdx, Option.some.injEq, Prod.mk.injEq] at hr
        obtain ⟨hb, ha2⟩ := hr
        have hgetD : a.freeOffsets.getD i 0 = a.freeOffsets[i] := by
          simp [List.getD_eq_getElem?_getD, List.getElem?_eq_getElem hlen]
        have hoff : b.deviceOffsetSectors = a.freeOffsets[i] := by
          rw [← hb, newBlockObject, hgetD]
        refine ⟨by rw [← hb]; rfl, by rw [← hb]; rfl, ?_, ?_, by rw [← ha2],
          by rw [← ha2], i, hlen, ?_, ?_, by rw [← ha2], ?_⟩
        · intro k
          have : b.writeOffsetSectors =
              (w + a.sectorSizeBytes - 1) / a.sectorSizeBytes := by rw [← hb]; rfl
          rw [this]
          exact ceilDiv_le_iff hs w k
        · rw [hoff]
          simpa using hpi
        · exact hoff.symm
        · intro j hj hji
          have := hmin j hji
          simpa [beq_eq_false_iff_ne] using this
        · rw [← ha2]
          exact set_getLastD_dropLast_perm a.freeOffsets i 0 hlen

/-- Witness for `newBlockAtLocation_spec`: re-attaching to the location of
free offset 10 with `writeOffsetBytes = 5` succeeds. -/
theorem newBlockAtLocation_spec_witness :
    ((∃ r, allocNewBlockAtLocation ⟨4, 10, [0, 10, 20]⟩ ⟨40, 40⟩ 5 = some r) ↔
      ∃ off, off ∈ [0, 10, 20] ∧
        getBlockLocationMessage ⟨4, 10, [0, 10, 20]⟩ off = ⟨40, 40⟩) :=
  (newBlockAtLocation_spec ⟨4, 10, [0, 10, 20]⟩ ⟨40, 40⟩ 5 (by decide)).1

namespace Device

/-- Writing an empty byte list leaves the device unchanged. -/
theorem writeAt_nil (d : Device) (off : Nat) : d.writeAt off [] = d := by
  funext a
  simp only [Device.writeAt, List.length_nil, Nat.add_zero]
  rw [if_neg (by omega)]

/-- Two contiguous writes coalesce into one write of the concatenation. -/
theorem writeAt_append (d : Device) (off : Nat) (xs ys : List Nat) :
    (d.writeAt off xs).writeAt (off + xs.length) ys = d.writeAt off (xs ++ ys) := by
  funext a
  simp only [Device.writeAt, List.length_append]
  by_cases h1 : off + xs.length ≤ a ∧ a < off + xs.length + ys.length
  · rw [if_pos h1, if_pos (by omega)]
    rw [List.getD_append_right xs ys 0 (a - off) (by omega)]
    congr 1
    omega
  · rw [if_neg h1]
    by_cases h2 : off ≤ a ∧ a < off + xs.length
    · rw [if_pos h2, if_pos (by omega)]
      rw [List.getD_append xs ys 0 (a - off) (by omega)]
    · rw [if_neg h2, if_neg (by omega)]

end Device

namespace BlockWriter

/-- The canonical state of a writer that started empty at sector offset `o`
with sector size `s` and has consumed exactly the bytes `P` through
`Write`: whole sectors flushed, the remainder pending. -/
def stateAfter (s o : Nat) (P : List Nat) : BlockWriter :=
  ⟨s, P.drop (P.length / s * s), o + P.length / s⟩

/-- The canonical device contents for such a writer: all completed sectors
of `P` written contiguously starting at byte address `o * s`. -/
def deviceAfter (d : Device) (s o : Nat) (P : List Nat) : Device :=
  d.writeAt (o * s) (P.take (P.length / s * s))

theorem writeAligned_eq (s o q : Nat) (hs : 0 < s) (Q c : List Nat)
    (hQ : Q.length = s * q) (d : Device) :
    writeAligned ⟨s, [], o + q⟩ (d.writeAt (o * s) Q) c =
      (stateAfter s o (Q ++ c), deviceAfter d s o (Q ++ c)) := by
  have hdiv : (Q ++ c).length / s = q + c.length / s := by
    rw [List.length_append, hQ, Nat.mul_add_div hs]
  have hmul : (Q ++ c).length / s * s = Q.length + c.length / s * s := by
    rw [hdiv, Nat.add_mul, hQ, Nat.mul_comm s q]
  have hoq : (o + q) * s = o * s + Q.length := by
    rw [Nat.add_mul, hQ, Nat.mul_comm s q]
  have hpend : (Q ++ c).drop ((Q ++ c).length / s * s) = c.drop (c.length / s * s) := by
    rw [hmul, List.drop_append]
  have htake : (Q ++ c).take ((Q ++ c).length / s * s) = Q ++ c.take (c.length / s * s) := by
    rw [hmul, List.take_append]
  have hred : writeAligned ⟨s, [], o + q⟩ (d.writeAt (o * s) Q) c =
      (⟨s, [] ++ c.drop (c.length / s * s), o + q + c.length / s⟩,
        (d.writeAt (o * s) Q).writeAt ((o + q) * s) (c.take (c.length / s * s))) := rfl
  rw [hred, stateAfter, deviceAfter, hpend, htake, hdiv]
  refine congrArg₂ Prod.mk ?_ ?_
  · exact congrArg₂ (BlockWriter.mk s) (List.nil_append _) (by omega)
  · rw [hoq, Device.writeAt_append]

theorem write_eq (s o : Nat) (hs : 0 < s) (P c : List Nat) (d : Device) :
    write (stateAfter s o P) (deviceAfter d s o P) c =
      (stateAfter s o (P ++ c), deviceAfter d s o (P ++ c)) := by
  have hmod := Nat.div_add_mod P.length s
  rw [Nat.mul_comm] at hmod
  have hmodlt : P.length % s < s := Nat.mod_lt _ hs
  have hle : P.length / s * s ≤ P.length := Nat.div_mul_le_self _ _
  have hplen : (P.drop (P.length / s * s)).length = P.length % s := by
    rw [List.length_drop]
    omega
  by_cases hr : P.length % s = 0
  · -- no pending bytes: straight to the aligned path
    have hqs : P.length = s * (P.length / s) := by
      rw [Nat.mul_comm]
      omega
    have hpend : P.drop (P.length / s * s) = [] := by
      have h0 : P.length / s * s = P.length := by omega
      rw [h0, List.drop_length]
    have hst : stateAfter s o P = ⟨s, [], o + P.length / s⟩ := by
      rw [stateAfter, hpend]
    have hdev : deviceAfter d s o P = d.writeAt (o * s) P := by
      rw [deviceAfter]
      have h0 : P.length / s * s = P.length := by omega
      rw [h0, List.take_length]
    rw [hst, hdev]
    have hred : write ⟨s, [], o + P.length / s⟩ (d.writeAt (o * s) P) c =
        writeAligned ⟨s, [], o + P.length / s⟩ (d.writeAt (o * s) P) c := rfl
    rw [hred]
    exact writeAligned_eq s o (P.length / s) hs P c hqs d
  · -- a pending partial sector of r bytes exists
    by_cases hfill : c.length < s - P.length % s
    · -- the chunk does not fill the pending sector: buffered, no write
      have hmin : min c.length (s - P.length % s) = c.length := by omega
      have hdivPC : (P ++ c).length / s = P.length / s := by
        rw [List.length_append]
        have h1 : P.length + c.length = s * (P.length / s) + (P.length % s + c.length) := by
          rw [Nat.mul_comm]
          omega
        have h2 : (P.length % s + c.length) / s = 0 := Nat.div_eq_of_lt (by omega)
        rw [h1, Nat.mul_add_div hs, h2, Nat.add_zero]
      have hW : stateAfter s o (P ++ c) =
          ⟨s, P.drop (P.length / s * s) ++ c, o + P.length / s⟩ := by
        rw [stateAfter, hdivPC]
        refine congrArg₂ (BlockWriter.mk s) ?_ rfl
        rw [List.drop_append_of_le_length hle]
      have hD : deviceAfter d s o (P ++ c) = deviceAfter d s o P := by
        rw [deviceAfter, deviceAfter, hdivPC, List.take_append_of_le_length hle]
      rw [hW, hD, write]
      simp only [stateAfter, hplen]
      rw [if_neg hr]
      have hflen : (P.drop (P.length / s * s) ++
          c.take (min c.length (s - P.length % s))).length < s := by
        rw [List.length_append, hplen, List.length_take]
        omega
      rw [if_pos hflen]
      have htake : c.take (min c.length (s - P.length % s)) = c := by
        rw [hmin, List.take_length]
      rw [htake]
    · -- the chunk fills the pending sector: write it, then the aligned path
      have hmin : min c.length (s - P.length % s) = s - P.length % s := by omega
      have hQlen : (P ++ c.take (s - P.length % s)).length = s * (P.length / s + 1) := by
        rw [List.length_append, List.length_take, Nat.mul_succ, Nat.mul_comm s (P.length / s)]
        omega
      have hsplit : P ++ c = (P ++ c.take (s - P.length % s)) ++ c.drop (s - P.length % s) := by
        rw [List.append_assoc, List.take_append_drop]
      have halign := writeAligned_eq s o (P.length / s + 1) hs
        (P ++ c.take (s - P.length % s)) (c.drop (s - P.length % s)) hQlen d
      rw [hsplit, ← halign, write]
      simp only [stateAfter, hplen]
      rw [if_neg hr]
      have hflen : ¬ (P.drop (P.length / s * s) ++
          c.take (min c.length (s - P.length % s))).length < s := by
        rw [List.length_append, hplen, List.length_take]
        omega
      rw [if_neg hflen, hmin]
      have hdev : (deviceAfter d s o P).writeAt ((o + P.length / s) * s)
            (P.drop (P.length / s * s) ++ c.take (s - P.length % s)) =
          d.writeAt (o * s) (P ++ c.take (s - P.length % s)) := by
        rw [deviceAfter]
        have hoq : (o + P.length / s) * s = o * s + (P.take (P.length / s * s)).length := by
          rw [List.length_take, Nat.add_mul]
          congr 1
          omega
        rw [hoq, Device.writeAt_append, ← List.append_assoc, List.take_append_drop]
      rw [hdev]
      exact congrArg₂
        (fun (w : BlockWriter) (dv : Device) =>
          writeAligned w dv (c.drop (s - P.length % s)))
        (congrArg (BlockWriter.mk s []) (by omega)) rfl

/-- Folding a chunk list through `Write` from a canonical state lands in
the canonical state of the concatenation. -/
theorem run_eq (s o : Nat) (hs : 0 < s) (cs : List (List Nat)) :
    ∀ (P : List Nat) (d : Device),
      run (stateAfter s o P, deviceAfter d s o P) cs =
        (stateAfter s o (P ++ cs.flatten), deviceAfter d s o (P ++ cs.flatten)) := by
  induction cs with
  | nil => intro P d; simp [run]
  | cons c cs ih =>
      intro P d
      rw [run, List.foldl_cons]
      have hw := write_eq s o hs P c d
      show run (write (stateAfter s o P) (deviceAfter d s o P) c) cs = _
      rw [hw, ih (P ++ c) d, List.flatten_cons, ← List.append_assoc]

/-- Running `flush` from a canonical state writes the declared bytes plus zero
padding up to the next sector boundary. -/
theorem flush_eq (s o : Nat) (hs : 0 < s) (P : List Nat) (d : Device) :
    flush (stateAfter s o P) (deviceAfter d s o P) =
      d.writeAt (o * s) (P ++ List.replicate ((s - P.length % s) % s) 0) := by
  have hmod := Nat.div_add_mod P.length s
  rw [Nat.mul_comm] at hmod
  have hmodlt : P.length % s < s := Nat.mod_lt _ hs
  have hle : P.length / s * s ≤ P.length := Nat.div_mul_le_self _ _
  have hplen : (P.drop (P.length / s * s)).length = P.length % s := by
    rw [List.length_drop]
    omega
  rw [flush]
  simp only [stateAfter, hplen]
  by_cases hr : P.length % s = 0
  · rw [if_pos hr, hr]
    have hz : (s - 0) % s = 0 := by rw [Nat.sub_zero, Nat.mod_self]
    rw [hz, List.replicate_zero, List.append_nil, deviceAfter]
    have h0 : P.length / s * s = P.length := by omega
    rw [h0, List.take_length]
  · rw [if_neg hr]
    have hpad : (s - P.length % s) % s = s - P.length % s := Nat.mod_eq_of_lt (by omega)
    rw [hpad, deviceAfter]
    have hoq : (o + P.length / s) * s = o * s + (P.take (P.length / s * s)).length := by
      rw [List.length_take, Nat.add_mul]
      congr 1
      omega
    show (d.writeAt (o * s) (P.take (P.length / s * s))).writeAt ((o + P.length / s) * s)
        (P.drop (P.length / s * s) ++ List.replicate (s - P.length % s) 0) = _
    rw [hoq, Device.writeAt_append, ← List.append_assoc, List.take_append_drop]

/-- Main sector-writer correctness: a fresh writer at sector offset `o` fed
any chunk sequence and then flushed overwrites exactly the byte range
starting at `o * s` with the concatenated bytes followed by zero padding to
the sector boundary, leaving all other addresses untouched. -/
theorem run_flush_eq (s o : Nat) (hs : 0 < s) (cs : List (List Nat)) (d : Device) :
    flush (run (⟨s, [], o⟩, d) cs).1 (run (⟨s, [], o⟩, d) cs).2 =
      d.writeAt (o * s)
        (cs.flatten ++ List.replicate ((s - cs.flatten.length % s) % s) 0) := by
  have hst : (⟨s, [], o⟩ : BlockWriter) = stateAfter s o [] := by
    rw [stateAfter]
    refine congrArg₂ (BlockWriter.mk s) (by simp) ?_
    simp [Nat.zero_div]
  have hdev : d = deviceAfter d s o [] := by
    rw [deviceAfter]
    simp [Device.writeAt_nil]
  rw [hst]
  conv_lhs => rw [hdev]
  rw [run_eq s o hs cs [] d]
  show flush (stateAfter s o ([] ++ cs.flatten)) (deviceAfter d s o ([] ++ cs.flatten)) = _
  rw [flush_eq s o hs ([] ++ cs.flatten) d]
  simp only [List.nil_append]

end BlockWriter

/-- C4: feeding any chunking of an input through `Write` followed by one
`flush` produces device contents equal to the single-call run on the
concatenated input (here proved as full equality of devices, which implies
equality modulo the trailing zero padding); and `flush` zero-pads any
pending partial sector to a full sector before writing it. -/
theorem writer_split_equiv (s o : Nat) (hs : 0 < s) (d : Device) :
    (∀ (input : List Nat) (cs : List (List Nat)), cs.flatten = input →
      BlockWriter.flush (BlockWriter.run (⟨s, [], o⟩, d) cs).1
          (BlockWriter.run (⟨s, [], o⟩, d) cs).2 =
        BlockWriter.flush (BlockWriter.run (⟨s, [], o⟩, d) [input]).1
          (BlockWriter.run (⟨s, [], o⟩, d) [input]).2) ∧
    (∀ w : BlockWriter, w.pendingSector ≠ [] →
      BlockWriter.flush w d =
        d.writeAt (w.offset * w.sectorSizeBytes)
          (w.pendingSector ++
            List.replicate (w.sectorSizeBytes - w.pendingSector.length) 0)) := by
  constructor
  · intro input cs hflat
    rw [BlockWriter.run_flush_eq s o hs cs d, BlockWriter.run_flush_eq s o hs [input] d]
    have h1 : List.flatten [input] = input := by
      rw [List.flatten_cons, List.flatten_nil, List.append_nil]
    rw [h1, hflat]
  · intro w hw
    rw [BlockWriter.flush, if_neg (by simpa using hw)]

/-- Witness for `writer_split_equiv` at sector size 2: writing `[1]` then
`[2, 3]` equals writing `[1, 2, 3]` at once. -/
theorem writer_split_equiv_witness :
    BlockWriter.flush (BlockWriter.run (⟨2, [], 3⟩, (fun _ => 7 : Device)) [[1], [2, 3]]).1
        (BlockWriter.run (⟨2, [], 3⟩, (fun _ => 7 : Device)) [[1], [2, 3]]).2 =
      BlockWriter.flush (BlockWriter.run (⟨2, [], 3⟩, (fun _ => 7 : Device)) [[1, 2, 3]]).1
        (BlockWriter.run (⟨2, [], 3⟩, (fun _ => 7 : Device)) [[1, 2, 3]]).2 :=
  (writer_split_equiv 2 3 (by decide) (fun _ => 7)).1 [1, 2, 3] [[1], [2, 3]] rfl

/-- Reading a list back element by element with `getD` recovers the list. -/
theorem range_map_getD (l : List Nat) :
    (List.range l.length).map (fun i => l.getD i 0) = l := by
  apply List.ext_getElem
  · simp
  · intro i h1 h2
    simp only [List.getElem_map, List.getElem_range, List.getD_eq_getElem?_getD,
      List.getElem?_eq_getElem h2, Option.getD_some]

/-- C2: once `Put`'s writer completes successfully (`bufErr = none`), a
`Get` over the same block-relative range — offset `reserved * sectorSize`
(the byte offset the finalizer reports), length the declared size — returns
exactly the bytes that were written; the zero padding in the final sector
lies beyond that range and is not observable. -/
theorem put_get_roundtrip (a : blockDeviceBackedBlockAllocator)
    (hs : 0 < a.sectorSizeBytes) (pb : blockDeviceBackedBlock)
    (href : 1 ≤ pb.usecount) (d : Device) (chunks : List (List Nat))
    (pb1 : blockDeviceBackedBlock) (reserved : Nat)
    (hput : blockPut a pb chunks.flatten.length = some (pb1, reserved))
    (pb2 : blockDeviceBackedBlock) (a2 : blockDeviceBackedBlockAllocator)
    (d2 : Device) (retOff : Nat) (err : Option String)
    (hphase2 : blockPutPhase2 a pb1 reserved d chunks none =
      some (pb2, a2, d2, retOff, err)) :
    blockGetBytes a d2 pb2 (reserved * a.sectorSizeBytes) chunks.flatten.length =
      chunks.flatten := by
  have hc : ¬ (pb.usecount + 1 ≤ 1) := by omega
  simp only [blockPut] at hput
  rw [if_neg hc] at hput
  rw [Option.some.injEq, Prod.mk.injEq] at hput
  obtain ⟨hpb1, hres⟩ := hput
  subst hpb1
  subst hres
  simp only [blockPutPhase2, blockRelease] at hphase2
  rw [if_neg (by omega : ¬ (pb.usecount + 1 - 1 < 0)),
    if_neg (by omega : ¬ (pb.usecount + 1 - 1 = 0))] at hphase2
  simp only [Option.map_some'] at hphase2
  rw [Option.some.injEq, Prod.mk.injEq, Prod.mk.injEq, Prod.mk.injEq, Prod.mk.injEq] at hphase2
  obtain ⟨hpb2, ha2, hd2, hret, herr⟩ := hphase2
  subst hpb2
  subst hd2
  rw [BlockWriter.run_flush_eq a.sectorSizeBytes
    (pb.deviceOffsetSectors + pb.writeOffsetSectors) hs chunks d]
  rw [blockGetBytes]
  have hbase : pb.deviceOffsetSectors * a.sectorSizeBytes +
      pb.writeOffsetSectors * a.sectorSizeBytes =
      (pb.deviceOffsetSectors + pb.writeOffsetSectors) * a.sectorSizeBytes := by
    rw [Nat.add_mul]
  have hmap : ∀ i ∈ List.range chunks.flatten.length,
      (Device.writeAt d ((pb.deviceOffsetSectors + pb.writeOffsetSectors) * a.sectorSizeBytes)
        (chunks.flatten ++
          List.replicate ((a.sectorSizeBytes -
            chunks.flatten.length % a.sectorSizeBytes) % a.sectorSizeBytes) 0))
      (pb.deviceOffsetSectors * a.sectorSizeBytes +
        pb.writeOffsetSectors * a.sectorSizeBytes + i) =
      chunks.flatten.getD i 0 := by
    intro i hi
    rw [List.mem_range] at hi
    rw [Device.writeAt, hbase]
    rw [if_pos ⟨by omega, by
      rw [List.length_append, List.length_replicate]
      omega⟩]
    have hsub : (pb.deviceOffsetSectors + pb.writeOffsetSectors) * a.sectorSizeBytes + i -
        (pb.deviceOffsetSectors + pb.writeOffsetSectors) * a.sectorSizeBytes = i := by
      omega
    rw [hsub, List.getD_append _ _ _ _ hi]
  rw [List.map_congr_left hmap, range_map_getD]

/-- Witness for `put_get_roundtrip`: writing `[5, 6, 7]` with sector size 2
into a block at device offset 3 and reading the same range back yields
`[5, 6, 7]` (the pad byte in the second sector is outside the range). -/
theorem put_get_roundtrip_witness :
    blockGetBytes ⟨2, 4, []⟩
        (BlockWriter.flush
          (BlockWriter.run (⟨2, [], 3 + 0⟩, (fun _ => 9 : Device)) [[5, 6, 7]]).1
          (BlockWriter.run (⟨2, [], 3 + 0⟩, (fun _ => 9 : Device)) [[5, 6, 7]]).2)
        ⟨1, 3, 2⟩ (0 * 2) 3 = [5, 6, 7] :=
  put_get_roundtrip ⟨2, 4, []⟩ (by decide) ⟨1, 3, 0⟩ (by decide) (fun _ => 9)
    [[5, 6, 7]] ⟨2, 3, 2⟩ 0 rfl ⟨1, 3, 2⟩ ⟨2, 4, []⟩
    (BlockWriter.flush
      (BlockWriter.run (⟨2, [], 3 + 0⟩, (fun _ => 9 : Device)) [[5, 6, 7]]).1
      (BlockWriter.run (⟨2, [], 3 + 0⟩, (fun _ => 9 : Device)) [[5, 6, 7]]).2)
    (0 * 2) none rfl

/-- C7: reference-count symmetry.  A `Get` (use-count increment) followed
by closing the returned reader restores the original block state and
leaves the allocator (hence the free list) untouched; and the writer
returned by `Put` performs exactly one release of its phase-1 reference —
whether the buffer's write succeeds (`bufErr = none`) or fails — its
finalizer returning the reserved byte offset `reserved * sectorSizeBytes`
together with that I/O error. -/
theorem refcount_symmetry (a : blockDeviceBackedBlockAllocator)
    (pb : blockDeviceBackedBlock) (href : 1 ≤ pb.usecount) (d : Device)
    (n : Nat) (chunks : List (List Nat)) (bufErr : Option String) :
    (∃ pbG, blockGetRef pb = some pbG ∧ pbG.usecount = pb.usecount + 1 ∧
      blockReaderClose pbG a = some (pb, a)) ∧
    (∀ (pb1 : blockDeviceBackedBlock) (reserved : Nat),
      blockPut a pb n = some (pb1, reserved) →
      ∃ pb2 d2, blockPutPhase2 a pb1 reserved d chunks bufErr =
          some (pb2, a, d2, reserved * a.sectorSizeBytes, bufErr) ∧
        pb2.usecount = pb1.usecount - 1 ∧ pb2.usecount = pb.usecount) := by
  have hc : ¬ (pb.usecount + 1 ≤ 1) := by omega
  constructor
  · refine ⟨{ pb with usecount := pb.usecount + 1 }, ?_, rfl, ?_⟩
    · rw [blockGetRef]
      rw [if_neg hc]
    · rw [blockReaderClose, blockRelease]
      rw [if_neg (by omega : ¬ (pb.usecount + 1 - 1 < 0)),
        if_neg (by omega : ¬ (pb.usecount + 1 - 1 = 0))]
      have hpb : ({ pb with usecount := pb.usecount + 1 - 1 } : blockDeviceBackedBlock)
          = pb := by
        have h0 : pb.usecount + 1 - 1 = pb.usecount := by omega
        rw [h0]
      rw [hpb]
  · intro pb1 reserved hput
    simp only [blockPut] at hput
    rw [if_neg hc] at hput
    rw [Option.some.injEq, Prod.mk.injEq] at hput
    obtain ⟨hpb1, hres⟩ := hput
    subst hpb1
    subst hres
    cases bufErr with
    | none =>
        refine ⟨⟨pb.usecount + 1 - 1, pb.deviceOffsetSectors,
            pb.writeOffsetSectors + toSectors a n⟩,
          BlockWriter.flush
            (BlockWriter.run (⟨a.sectorSizeBytes, [],
              pb.deviceOffsetSectors + pb.writeOffsetSectors⟩, d) chunks).1
            (BlockWriter.run (⟨a.sectorSizeBytes, [],
              pb.deviceOffsetSectors + pb.writeOffsetSectors⟩, d) chunks).2,
          ?_, rfl, by show pb.usecount + 1 - 1 = pb.usecount; omega⟩
        simp only [blockPutPhase2, blockRelease]
        rw [if_neg (by omega : ¬ (pb.usecount + 1 - 1 < 0)),
          if_neg (by omega : ¬ (pb.usecount + 1 - 1 = 0))]
        simp only [Option.map_some']
    | some e =>
        refine ⟨⟨pb.usecount + 1 - 1, pb.deviceOffsetSectors,
            pb.writeOffsetSectors + toSectors a n⟩,
          (BlockWriter.run (⟨a.sectorSizeBytes, [],
            pb.deviceOffsetSectors + pb.writeOffsetSectors⟩, d) chunks).2,
          ?_, rfl, by show pb.usecount + 1 - 1 = pb.usecount; omega⟩
        simp only [blockPutPhase2, blockRelease]
        rw [if_neg (by omega : ¬ (pb.usecount + 1 - 1 < 0)),
          if_neg (by omega : ¬ (pb.usecount + 1 - 1 = 0))]
        simp only [Option.map_some']

/-- Witness for `refcount_symmetry` at a concrete block with use count 1
and a failing buffer (`some "io"`). -/
theorem refcount_symmetry_witness :
    (∃ pbG, blockGetRef ⟨1, 3, 0⟩ = some pbG ∧ pbG.usecount = (1 : Int) + 1 ∧
      blockReaderClose pbG ⟨2, 4, []⟩ = some (⟨1, 3, 0⟩, ⟨2, 4, []⟩)) ∧
    (∃ pb2 d2, blockPutPhase2 ⟨2, 4, []⟩ ⟨2, 3, 2⟩ 0 (fun _ => 9 : Device) [[5]]
          (some "io") =
        some (pb2, ⟨2, 4, []⟩, d2, 0 * 2, some "io") ∧
      pb2.usecount = (2 : Int) - 1 ∧ pb2.usecount = 1) :=
  ⟨(refcount_symmetry ⟨2, 4, []⟩ ⟨1, 3, 0⟩ (by decide) (fun _ => 9) 3 [[5]]
      (some "io")).1,
    (refcount_symmetry ⟨2, 4, []⟩ ⟨1, 3, 0⟩ (by decide) (fun _ => 9) 3 [[5]]
      (some "io")).2 ⟨2, 3, 2⟩ 0 rfl⟩

/-- The whole-system state for C1's operation traces: the allocator plus
every `Block` handle it has ever issued (live handles have a positive use
count; a handle whose count reached zero is dead and its offset is back in
the free list). -/
structure SysState where
  alloc : blockDeviceBackedBlockAllocator
  blocks : List blockDeviceBackedBlock
deriving DecidableEq

/-- The operations of the C1 trace: `NewBlock`, `NewBlockAtLocation`, and
`Release` on the `i`-th handle ever issued. -/
inductive AllocOp where
  | newBlock : AllocOp
  | newBlockAtLocation : BlockLocation → Nat → AllocOp
  | release : Nat → AllocOp
deriving DecidableEq

/-- One step of the system.  A failed `NewBlock` (exhaustion) or
`NewBlockAtLocation` (not found) reports its error and leaves the state
unchanged; a `Release` whose decrement goes negative is a panic (`none`),
as is a `release` naming a handle that was never issued (modelled as a
no-op, since no such call can be written). -/
def sysStep (st : SysState) : AllocOp → Option SysState
  | .newBlock =>
      match allocNewBlock st.alloc with
      | .error _ => some st
      | .ok (b, _, a2) => some ⟨a2, st.blocks ++ [b]⟩
  | .newBlockAtLocation loc w =>
      match allocNewBlockAtLocation st.alloc loc w with
      | none => some st
      | some (b, a2) => some ⟨a2, st.blocks ++ [b]⟩
  | .release i =>
      match st.blocks[i]? with
      | none => some st
      | some b =>
          (blockRelease b st.alloc).map (fun pr => ⟨pr.2, st.blocks.set i pr.1⟩)

/-- Run a trace of operations from a state; `none` as soon as a step panics. -/
def sysRun (st : SysState) (ops : List AllocOp) : Option SysState :=
  ops.foldlM sysStep st

/-- The offsets held by live handles (use count still positive). -/
def liveOffsets (st : SysState) : List Nat :=
  (st.blocks.filter (fun b => 0 < b.usecount)).map
    (fun b => b.deviceOffsetSectors)

/-- A fresh system: a new allocator, no handles issued yet. -/
def freshSys (sectorSizeBytes blockSectorCount blockCount : Nat) : SysState :=
  ⟨newAllocator sectorSizeBytes blockSectorCount blockCount, []⟩


/-- Issuing a fresh handle moves its offset into the live set. -/
theorem liveOffsets_append_new (a : blockDeviceBackedBlockAllocator)
    (bl : List blockDeviceBackedBlock) (off ws : Nat) :
    liveOffsets ⟨a, bl ++ [newBlockObject off ws]⟩ =
      liveOffsets ⟨a, bl⟩ ++ [off] := by
  rw [liveOffsets, liveOffsets, List.filter_append, List.map_append]
  rfl

/-- Decomposing the live set around the handle at index `i`, before and
after replacing that handle. -/
theorem liveOffsets_set (st : SysState) (a2 : blockDeviceBackedBlockAllocator)
    (i : Nat) (b b2 : blockDeviceBackedBlock) (hb : st.blocks[i]? = some b) :
    ∃ A B : List Nat,
      liveOffsets st =
        A ++ ((List.filter (fun x => 0 < x.usecount) [b]).map
          (fun x => x.deviceOffsetSectors) ++ B) ∧
      liveOffsets ⟨a2, st.blocks.set i b2⟩ =
        A ++ ((List.filter (fun x => 0 < x.usecount) [b2]).map
          (fun x => x.deviceOffsetSectors) ++ B) := by
  obtain ⟨hilt, hbi⟩ := List.getElem?_eq_some_iff.mp hb
  refine ⟨((st.blocks.take i).filter (fun x => 0 < x.usecount)).map
      (fun x => x.deviceOffsetSectors),
    ((st.blocks.drop (i + 1)).filter (fun x => 0 < x.usecount)).map
      (fun x => x.deviceOffsetSectors), ?_, ?_⟩
  · rw [liveOffsets]
    conv_lhs => rw [← List.take_append_drop i st.blocks,
      List.drop_eq_getElem_cons hilt, hbi, ← List.singleton_append]
    rw [List.filter_append, List.filter_append, List.map_append, List.map_append]
  · rw [liveOffsets]
    have hset : st.blocks.set i b2 =
        st.blocks.take i ++ [b2] ++ st.blocks.drop (i + 1) := by
      rw [List.set_eq_take_append_cons_drop, if_pos hilt, List.append_assoc,
        List.singleton_append]
    rw [hset, List.filter_append, List.filter_append, List.map_append, List.map_append,
      List.append_assoc]

/-- The multiset of offsets `freeOffsets ++ liveOffsets` is preserved by
every successful system step. -/
theorem sysStep_perm (st st' : SysState) (op : AllocOp)
    (h : sysStep st op = some st') :
    (st'.alloc.freeOffsets ++ liveOffsets st').Perm
      (st.alloc.freeOffsets ++ liveOffsets st) := by
  cases op with
  | newBlock =>
      rw [sysStep] at h
      match hF : st.alloc.freeOffsets with
      | [] =>
          rw [allocNewBlock, hF] at h
          rw [Option.some.injEq] at h
          subst h
          rw [hF]
      | off :: rest =>
          rw [allocNewBlock, hF] at h
          rw [Option.some.injEq] at h
          subst h
          rw [liveOffsets_append_new]
          show (rest ++ (liveOffsets st ++ [off])).Perm
            ((off :: rest) ++ liveOffsets st)
          rw [← List.append_assoc]
          exact List.perm_append_singleton off (rest ++ liveOffsets st)
  | newBlockAtLocation loc w =>
      rw [sysStep] at h
      match hA : allocNewBlockAtLocation st.alloc loc w with
      | none =>
          rw [hA] at h
          rw [Option.some.injEq] at h
          subst h
          exact List.Perm.refl _
      | some (b, a2) =>
          rw [hA] at h
          rw [Option.some.injEq] at h
          subst h
          rw [allocNewBlockAtLocation] at hA
          match hIdx : st.alloc.freeOffsets.findIdx?
              (fun o2 => getBlockLocationMessage st.alloc o2 == loc) with
          | none => rw [hIdx] at hA; exact absurd hA (by simp)
          | some i =>
              obtain ⟨hlen, -, -⟩ := List.findIdx?_eq_some_iff_getElem.mp hIdx
              rw [hIdx, Option.some.injEq, Prod.mk.injEq] at hA
              obtain ⟨hb, ha2⟩ := hA
              rw [← hb, ← ha2]
              show ((st.alloc.freeOffsets.set i
                    (st.alloc.freeOffsets.getLastD 0)).dropLast ++
                  liveOffsets ⟨st.alloc, st.blocks ++
                    [newBlockObject (st.alloc.freeOffsets.getD i 0)
                      ((w + st.alloc.sectorSizeBytes - 1) / st.alloc.sectorSizeBytes)]⟩).Perm
                (st.alloc.freeOffsets ++ liveOffsets st)
              rw [liveOffsets_append_new]
              have hgetD : st.alloc.freeOffsets.getD i 0 =
                  st.alloc.freeOffsets.get ⟨i, hlen⟩ := by
                simp [List.getD_eq_getElem?_getD, List.getElem?_eq_getElem hlen]
              have h1 : ((st.alloc.freeOffsets.set i
                    (st.alloc.freeOffsets.getLastD 0)).dropLast).Perm
                  (st.alloc.freeOffsets.eraseIdx i) :=
                set_getLastD_dropLast_perm st.alloc.freeOffsets i 0 hlen
              have h2 : (st.alloc.freeOffsets).Perm
                  (st.alloc.freeOffsets.get ⟨i, hlen⟩ ::
                    st.alloc.freeOffsets.eraseIdx i) :=
                perm_getElem_cons_eraseIdx st.alloc.freeOffsets i hlen
              rw [← List.append_assoc, hgetD]
              refine List.Perm.trans
                (List.perm_append_singleton _ _)
                (List.Perm.trans ?_ ((h2.append_right (liveOffsets st)).symm))
              show (st.alloc.freeOffsets.get ⟨i, hlen⟩ ::
                  ((st.alloc.freeOffsets.set i
                    (st.alloc.freeOffsets.getLastD 0)).dropLast ++
                    liveOffsets st)).Perm
                ((st.alloc.freeOffsets.get ⟨i, hlen⟩ ::
                  st.alloc.freeOffsets.eraseIdx i) ++ liveOffsets st)
              exact List.Perm.cons _ (h1.append_right _)
  | release i =>
      rw [sysStep] at h
      match hB : st.blocks[i]? with
      | none =>
          rw [hB] at h
          rw [Option.some.injEq] at h
          subst h
          exact List.Perm.refl _
      | some b =>
          rw [hB] at h
          have h' : (blockRelease b st.alloc).map
              (fun pr => (⟨pr.2, st.blocks.set i pr.1⟩ : SysState)) = some st' := h
          clear h
          rw [blockRelease] at h'
          by_cases h1 : b.usecount - 1 < 0
          · rw [if_pos h1] at h'
            simp at h'
          · rw [if_neg h1] at h'
            by_cases h2 : b.usecount - 1 = 0
            · rw [if_pos h2] at h'
              simp only [Option.map_some'] at h'
              rw [Option.some.injEq] at h'
              subst h'
              obtain ⟨A, B, hL, hL2⟩ := liveOffsets_set st
                { st.alloc with
                    freeOffsets := st.alloc.freeOffsets ++ [b.deviceOffsetSectors] }
                i b { b with usecount := b.usecount - 1 } hB
              have hfb : List.filter (fun x => 0 < x.usecount) [b] = [b] := by
                rw [List.filter_cons,
                  if_pos (by simpa using (by omega : (0:Int) < b.usecount))]
                rfl
              have hfb2 : List.filter (fun x => 0 < x.usecount)
                  [{ b with usecount := b.usecount - 1 }] = [] := by
                rw [List.filter_cons,
                  if_neg (by simpa using (by omega : ¬ (0:Int) < b.usecount - 1))]
                rfl
              rw [hfb] at hL
              rw [hfb2] at hL2
              show ((st.alloc.freeOffsets ++ [b.deviceOffsetSectors]) ++
                  liveOffsets ⟨{ st.alloc with
                    freeOffsets := st.alloc.freeOffsets ++ [b.deviceOffsetSectors] },
                    st.blocks.set i { b with usecount := b.usecount - 1 }⟩).Perm
                (st.alloc.freeOffsets ++ liveOffsets st)
              rw [hL, hL2, List.map_nil, List.nil_append, List.append_assoc]
              refine List.Perm.append_left _ ?_
              show (([b.deviceOffsetSectors] ++ (A ++ B))).Perm
                (A ++ ((List.map (fun x => x.deviceOffsetSectors) [b]) ++ B))
              rw [List.map_cons, List.map_nil, List.singleton_append,
                List.singleton_append]
              exact List.perm_middle.symm
            · rw [if_neg h2] at h'
              simp only [Option.map_some'] at h'
              rw [Option.some.injEq] at h'
              subst h'
              obtain ⟨A, B, hL, hL2⟩ := liveOffsets_set st st.alloc
                i b { b with usecount := b.usecount - 1 } hB
              have hfb : List.filter (fun x => 0 < x.usecount) [b] = [b] := by
                rw [List.filter_cons,
                  if_pos (by simpa using (by omega : (0:Int) < b.usecount))]
                rfl
              have hfb2 : List.filter (fun x => 0 < x.usecount)
                  [{ b with usecount := b.usecount - 1 }] =
                  [{ b with usecount := b.usecount - 1 }] := by
                rw [List.filter_cons,
                  if_pos (by simpa using (by omega : (0:Int) < b.usecount - 1))]
                rfl
              rw [hfb] at hL
              rw [hfb2] at hL2
              show (st.alloc.freeOffsets ++
                  liveOffsets ⟨st.alloc,
                    st.blocks.set i { b with usecount := b.usecount - 1 }⟩).Perm
                (st.alloc.freeOffsets ++ liveOffsets st)
              rw [hL, hL2]
              exact List.Perm.refl _

/-- The step invariant extended to whole traces. -/
theorem sysRun_perm (ops : List AllocOp) :
    ∀ (st st' : SysState), sysRun st ops = some st' →
      (st'.alloc.freeOffsets ++ liveOffsets st').Perm
        (st.alloc.freeOffsets ++ liveOffsets st) := by
  induction ops with
  | nil =>
      intro st st' h
      rw [sysRun, List.foldlM_nil] at h
      have h2 : st = st' := Option.some.inj h
      subst h2
      exact List.Perm.refl _
  | cons op ops ih =>
      intro st st' h
      rw [sysRun, List.foldlM_cons] at h
      match hS : sysStep st op with
      | none => rw [hS] at h; exact absurd h (by simp)
      | some st1 =>
          rw [hS] at h
          have h1 : sysRun st1 ops = some st' := h
          exact (ih st1 st' h1).trans (sysStep_perm st st1 op hS)

/-- C1: for every trace of `NewBlock` / `NewBlockAtLocation` / `Release`
operations from a fresh allocator, the free-list offsets together with the
offsets held by live blocks are a permutation of the full block range
`[0·bsc, 1·bsc, …, (m-1)·bsc]` — no duplication, no loss; and when
sectors-per-block is positive (so the block offsets are distinct), every
physical-block offset is at all times in the free list XOR held by exactly
one live block: its total count across the two is exactly 1. -/
theorem alloc_release_partition (s bsc m : Nat) (ops : List AllocOp)
    (st' : SysState) (hrun : sysRun (freshSys s bsc m) ops = some st') :
    (st'.alloc.freeOffsets ++ liveOffsets st').Perm
      ((List.range m).map (fun i => i * bsc)) ∧
    (0 < bsc → ∀ i < m,
      (st'.alloc.freeOffsets ++ liveOffsets st').count (i * bsc) = 1) := by
  have hperm0 := sysRun_perm ops (freshSys s bsc m) st' hrun
  have hfresh : (freshSys s bsc m).alloc.freeOffsets ++ liveOffsets (freshSys s bsc m) =
      (List.range m).map (fun i => i * bsc) := by
    rw [freshSys, liveOffsets, newAllocator]
    rw [List.filter_nil, List.map_nil, List.append_nil]
  rw [hfresh] at hperm0
  refine ⟨hperm0, fun hbsc i him => ?_⟩
  rw [hperm0.count_eq]
  have hinj : Function.Injective (fun i : Nat => i * bsc) := by
    intro x y hxy
    exact Nat.eq_of_mul_eq_mul_right hbsc hxy
  have hnodup : ((List.range m).map (fun i => i * bsc)).Nodup :=
    (List.nodup_range m).map hinj
  have hmem : i * bsc ∈ (List.range m).map (fun i => i * bsc) :=
    List.mem_map.mpr ⟨i, List.mem_range.mpr him, rfl⟩
  exact List.count_eq_one_of_mem hnodup hmem

/-- Witness for `alloc_release_partition`: from a fresh two-block
allocator, allocate, release, allocate again; the surviving state still
partitions the offsets `{0, 1}`. -/
theorem alloc_release_partition_witness :
    ((⟨⟨1, 1, [0]⟩, [⟨0, 0, 0⟩, ⟨1, 1, 0⟩]⟩ : SysState).alloc.freeOffsets ++
        liveOffsets ⟨⟨1, 1, [0]⟩, [⟨0, 0, 0⟩, ⟨1, 1, 0⟩]⟩).Perm
      ((List.range 2).map (fun i => i * 1)) ∧
    (∀ i < 2,
      ((⟨⟨1, 1, [0]⟩, [⟨0, 0, 0⟩, ⟨1, 1, 0⟩]⟩ : SysState).alloc.freeOffsets ++
        liveOffsets ⟨⟨1, 1, [0]⟩, [⟨0, 0, 0⟩, ⟨1, 1, 0⟩]⟩).count (i * 1) = 1) :=
  ⟨(alloc_release_partition 1 1 2
      [AllocOp.newBlock, AllocOp.release 0, AllocOp.newBlock]
      ⟨⟨1, 1, [0]⟩, [⟨0, 0, 0⟩, ⟨1, 1, 0⟩]⟩ rfl).1,
    (alloc_release_partition 1 1 2
      [AllocOp.newBlock, AllocOp.release 0, AllocOp.newBlock]
      ⟨⟨1, 1, [0]⟩, [⟨0, 0, 0⟩, ⟨1, 1, 0⟩]⟩ rfl).2 (by decide)⟩

/-- Unfolding one step of a trace whose first step succeeds. -/
theorem sysRun_cons {st st1 : SysState} {op : AllocOp} {ops : List AllocOp}
    (h : sysStep st op = some st1) :
    sysRun st (op :: ops) = sysRun st1 ops := by
  rw [sysRun, List.foldlM_cons, h]
  rfl

/-- Computing `sysStep` on `release i` when handle `i` exists. -/
theorem sysStep_release_eq (st : SysState) (i : Nat) (b : blockDeviceBackedBlock)
    (h : st.blocks[i]? = some b) :
    sysStep st (AllocOp.release i) =
      (blockRelease b st.alloc).map
        (fun pr => (⟨pr.2, st.blocks.set i pr.1⟩ : SysState)) := by
  rw [sysStep, h]

/-- Computing `sysStep` on `newBlock` when the free list is non-empty. -/
theorem sysStep_newBlock_eq (st : SysState) (off : Nat) (rest : List Nat)
    (h : st.alloc.freeOffsets = off :: rest) :
    sysStep st AllocOp.newBlock =
      some ⟨{ st.alloc with freeOffsets := rest },
        st.blocks ++ [newBlockObject off 0]⟩ := by
  rw [sysStep, allocNewBlock, h]

/-- C6 counterexample: from a fresh three-block allocator, allocate blocks
A (offset 0) and B (offset 1) — leaving offset 2 still free — then release
A, release B and allocate twice.  The two allocations return offsets 2 and
0, not A then B (`[0, 1]`): with a non-empty free list the pre-existing
free offset is dequeued first, refuting the claim's "for every allocator
state". -/
theorem fifo_counterexample :
    (sysRun (freshSys 1 1 3)
        [AllocOp.newBlock, AllocOp.newBlock, AllocOp.release 0, AllocOp.release 1,
          AllocOp.newBlock, AllocOp.newBlock]).map
        (fun st => (st.blocks.drop 2).map (fun b => b.deviceOffsetSectors)) =
      some [2, 0] ∧ ([2, 0] : List Nat) ≠ [0, 1] := by
  constructor
  · rfl
  · decide

/-- C6 (amended): allocation order is FIFO over released offsets provided
the free list is empty when the releases occur.  Releasing block A (handle
`i`) and then block B (handle `j ≠ i`), both held with use count 1, and
then calling `NewBlock` twice returns fresh handles carrying offsets A
then B, in that order. -/
theorem release_release_alloc_fifo (st : SysState) (i j : Nat)
    (A B : blockDeviceBackedBlock)
    (hfree : st.alloc.freeOffsets = []) (hij : i ≠ j)
    (hA : st.blocks[i]? = some A) (hB : st.blocks[j]? = some B)
    (hAu : A.usecount = 1) (hBu : B.usecount = 1) :
    ∃ st', sysRun st [AllocOp.release i, AllocOp.release j,
        AllocOp.newBlock, AllocOp.newBlock] = some st' ∧
      (st'.blocks.drop st.blocks.length).map (fun b => b.deviceOffsetSectors) =
        [A.deviceOffsetSectors, B.deviceOffsetSectors] := by
  have h1 := sysStep_release_eq st i A hA
  rw [blockRelease, if_neg (by omega : ¬ (A.usecount - 1 < 0)),
    if_pos (by omega : A.usecount - 1 = 0)] at h1
  simp only [Option.map_some'] at h1
  rw [hfree, List.nil_append] at h1
  set st1 : SysState :=
    ⟨{ st.alloc with freeOffsets := [A.deviceOffsetSectors] },
      st.blocks.set i { A with usecount := A.usecount - 1 }⟩ with hst1
  have hB1 : st1.blocks[j]? = some B := by
    show (st.blocks.set i { A with usecount := A.usecount - 1 })[j]? = some B
    rw [List.getElem?_set_ne hij]
    exact hB
  have h2 := sysStep_release_eq st1 j B hB1
  rw [blockRelease, if_neg (by omega : ¬ (B.usecount - 1 < 0)),
    if_pos (by omega : B.usecount - 1 = 0)] at h2
  simp only [Option.map_some'] at h2
  set st2 : SysState :=
    ⟨{ st1.alloc with
        freeOffsets := st1.alloc.freeOffsets ++ [B.deviceOffsetSectors] },
      st1.blocks.set j { B with usecount := B.usecount - 1 }⟩ with hst2
  have h3 := sysStep_newBlock_eq st2 A.deviceOffsetSectors [B.deviceOffsetSectors]
    (by show [A.deviceOffsetSectors] ++ [B.deviceOffsetSectors] = _; rfl)
  set st3 : SysState :=
    ⟨{ st2.alloc with freeOffsets := [B.deviceOffsetSectors] },
      st2.blocks ++ [newBlockObject A.deviceOffsetSectors 0]⟩ with hst3
  have h4 := sysStep_newBlock_eq st3 B.deviceOffsetSectors []
    (by show [B.deviceOffsetSectors] = _; rfl)
  set st4 : SysState :=
    ⟨{ st3.alloc with freeOffsets := [] },
      st3.blocks ++ [newBlockObject B.deviceOffsetSectors 0]⟩ with hst4
  refine ⟨st4, ?_, ?_⟩
  · rw [sysRun_cons h1, sysRun_cons h2, sysRun_cons h3, sysRun_cons h4]
    rfl
  · show ((st2.blocks ++ [newBlockObject A.deviceOffsetSectors 0] ++
        [newBlockObject B.deviceOffsetSectors 0]).drop st.blocks.length).map
      (fun b => b.deviceOffsetSectors) = _
    rw [List.append_assoc, List.drop_left' (by
      show ((st.blocks.set i _).set j _).length = st.blocks.length
      rw [List.length_set, List.length_set])]
    rfl

/-- Witness for `release_release_alloc_fifo`: two live blocks at offsets 5
and 7, empty free list; release both, allocate twice, get 5 then 7. -/
theorem release_release_alloc_fifo_witness :
    ∃ st', sysRun ⟨⟨1, 1, []⟩, [⟨1, 5, 0⟩, ⟨1, 7, 0⟩]⟩
        [AllocOp.release 0, AllocOp.release 1, AllocOp.newBlock,
          AllocOp.newBlock] = some st' ∧
      (st'.blocks.drop
        ((⟨⟨1, 1, []⟩, [⟨1, 5, 0⟩, ⟨1, 7, 0⟩]⟩ : SysState).blocks.length)).map
        (fun b => b.deviceOffsetSectors) = [5, 7] :=
  release_release_alloc_fifo ⟨⟨1, 1, []⟩, [⟨1, 5, 0⟩, ⟨1, 7, 0⟩]⟩ 0 1
    ⟨1, 5, 0⟩ ⟨1, 7, 0⟩ rfl (by decide) rfl rfl rfl rfl
